import Mathlib

/-!
Verification of the mutation-accumulation cancer-risk model
(`src/models.py`), the age-group label parsers (`src/utils.py`),
the fit statistics computed in `plot_residual_analysis`
(`src/visualization.py`) and the age-incidence curve extraction
(`prepare_age_incidence_data` in `src/models.py`), as a shallow
embedding in Lean.

Numeric values are embedded as real numbers (`ℝ`); the age-group
parsers produce exact rationals (`ℚ`), with `Option` playing the
role of the NaN "unparseable / undefined" sentinel that the Python
code propagates instead of raising.
-/

namespace CancerRisk

/-! ### Age-group label parsing (`src/utils.py`) -/

/-- Characters stripped by Python's `str.strip()`. -/
def isPySpace (c : Char) : Bool :=
  c == ' ' || c == '\t' || c == '\n' || c == '\r' || c == '\x0b' || c == '\x0c'

/-- Embedding of Python's `str.strip()` on the character list of a string. -/
def pytrim (s : List Char) : List Char :=
  ((s.dropWhile isPySpace).reverse.dropWhile isPySpace).reverse

/-- Embedding of Python's `str.rstrip("+")`: remove every trailing `'+'`. -/
def rstripPlus (s : List Char) : List Char :=
  (s.reverse.dropWhile (· == '+')).reverse

/-- Embedding of Python's `str.endswith("+")`. -/
def endsWithPlus (s : List Char) : Bool :=
  s.reverse.head? == some '+'

/-- Numeric value of a list of decimal digit characters (most significant
first), as computed by positional reading. -/
def digitsVal (ds : List Char) : ℕ :=
  ds.foldl (fun acc c => 10 * acc + (c.toNat - '0'.toNat)) 0

/-- Value of an unsigned decimal numeral `digits` or `digits.digits`
(either side of the point may be empty, but not both).  Returns `none`
on anything else, modelling the `ValueError` branch of Python's
`float()` on such strings.  When the part after the first `'.'` is
non-empty it necessarily starts with `'.'`. -/
def pyfloatUnsigned (u : List Char) : Option ℚ :=
  let ip := u.takeWhile (· != '.')
  let rest := u.dropWhile (· != '.')
  if rest = [] then
    if ip ≠ [] ∧ (∀ c ∈ ip, c.isDigit) then some ((digitsVal ip : ℚ)) else none
  else
    let fp := rest.drop 1
    if fp.contains '.' then none
    else if (ip ≠ [] ∨ fp ≠ []) ∧ (∀ c ∈ ip, c.isDigit) ∧ (∀ c ∈ fp, c.isDigit) then
      some ((digitsVal ip : ℚ) + (digitsVal fp : ℚ) / 10 ^ fp.length)
    else none

/-- Modelled from Python's builtin `float(str)` on plain decimal numerals:
optional surrounding whitespace, an optional sign, then a decimal numeral
with an optional fractional part.  A parse failure (Python's `ValueError`,
always caught by the callers in `src/utils.py`) is `none`. -/
def pyfloat (s : List Char) : Option ℚ :=
  match pytrim s with
  | [] => none
  | c :: u =>
      if c = '-' then (pyfloatUnsigned u).map (fun v => -v)
      else if c = '+' then pyfloatUnsigned u
      else pyfloatUnsigned (c :: u)

/-- Embedding of `age_group_to_start` (`src/utils.py`): starting age of an
age-group label such as `"1-4"`, `"85+"` or `"All Ages"`; `none` models the
NaN returned for unparseable labels. -/
def age_group_to_start (s : String) : Option ℚ :=
  let t := pytrim s.data
  if t = "All Ages".data then some (-1)
  else if endsWithPlus t then pyfloat (rstripPlus t)
  else if t.contains '-' then pyfloat (t.takeWhile (· != '-'))
  else none

/-- Embedding of `age_group_to_mid` (`src/utils.py`): midpoint age of an
age-group label; `none` models the NaN returned for `"All Ages"` and for
unparseable labels.  Python's `lo, hi = s.split("-")` raises `ValueError`
(caught, yielding NaN) unless the label contains exactly one `'-'`. -/
def age_group_to_mid (s : String) : Option ℚ :=
  let t := pytrim s.data
  if t = "All Ages".data then none
  else if endsWithPlus t then (pyfloat (rstripPlus t)).map (fun v => v + 5/2)
  else if t.contains '-' then
    let lo := t.takeWhile (· != '-')
    let rest := (t.dropWhile (· != '-')).drop 1
    if rest.contains '-' then none
    else
      match pyfloat lo, pyfloat rest with
      | some a, some b => some ((a + b) / 2)
      | _, _ => none
  else none

/-! ### The mutation-accumulation model (`src/models.py`) -/

/-- Partial sum of the Poisson(`lam`) mass function over `{0, …, k-1}`,
i.e. the Poisson CDF at `k-1`.  Both branches of the source (scipy's
`poisson.cdf(k-1, lam)` and the manual recurrence summing
`exp(-lam) * lam^i / i!` for `i ∈ range(k)`) compute this value. -/
noncomputable def poissonCdfSum (k : ℕ) (lam : ℝ) : ℝ :=
  ∑ i ∈ Finset.range k, Real.exp (-lam) * lam ^ i / (Nat.factorial i : ℝ)

/-- Embedding of `MutationAccumulationModel._binomial_probability`
(`src/models.py`): `P(X ≥ k)` for `X` the number of successes in `n`
trials of probability `p`; exact closed form for `k = 1`, `0` when the
threshold is unreachable, otherwise a Poisson tail approximation with an
underflow cutoff at `1e-10`. -/
noncomputable def binomial_probability (n : ℝ) (k : ℕ) (p : ℝ) : ℝ :=
  if k = 1 then 1 - (1 - p) ^ n
  else if (k : ℝ) > n then 0
  else if n * p < 1 / 10 ^ 10 then 0
  else 1 - poissonCdfSum k (n * p)

/-- Parameters of `MutationAccumulationModel` (`src/models.py`), fixed at
construction. -/
structure MutationAccumulationModel where
  p : ℝ
  M : ℕ
  divisions_per_year : ℝ
  C : ℕ
  r : ℝ

/-- Embedding of Python's `int()` truncation toward zero on a real. -/
noncomputable def pyint (x : ℝ) : ℝ :=
  if 0 ≤ x then (⌊x⌋ : ℝ) else (⌈x⌉ : ℝ)

/-- Per-age body of `MutationAccumulationModel.predict` (`src/models.py`):
effective per-division probability `p_eff = p * (1 - r)`, trial count
`N = a * divisions_per_year`, per-clone probability (exact closed form
inlined for `C = 1`, otherwise `_binomial_probability(int(N), C, p_eff)`
with the trial count truncated to an integer), and tissue-level
probability `1 - (1 - p_cell) ^ M`. -/
noncomputable def MutationAccumulationModel.predictOne
    (m : MutationAccumulationModel) (a : ℝ) : ℝ :=
  let p_eff := m.p * (1 - m.r)
  let N := a * m.divisions_per_year
  let p_cell :=
    if m.C = 1 then 1 - (1 - p_eff) ^ N
    else binomial_probability (pyint N) m.C p_eff
  1 - (1 - p_cell) ^ m.M

/-- Embedding of `MutationAccumulationModel.predict` (`src/models.py`):
element-wise application of the per-age risk function. -/
noncomputable def MutationAccumulationModel.predict
    (m : MutationAccumulationModel) (ages : List ℝ) : List ℝ :=
  ages.map m.predictOne

/-- Maximum of a list of reals, as `numpy`'s `.max()` on a non-empty
array (the value at `[]` is junk; `numpy` raises there). -/
noncomputable def listMax : List ℝ → ℝ
  | [] => 0
  | x :: xs => xs.foldl max x

/-- Embedding of `MutationAccumulationModel.predict_scaled`
(`src/models.py`): optional linear rescaling of the predictions so that
their maximum becomes `scale_to_max`; an all-zero list of the same
length when the unscaled maximum is not positive. -/
noncomputable def MutationAccumulationModel.predict_scaled
    (m : MutationAccumulationModel) (ages : List ℝ) (scale_to_max : Option ℝ) :
    List ℝ :=
  let P := m.predict ages
  match scale_to_max with
  | none => P
  | some s =>
      let mx := listMax P
      if 0 < mx then P.map (fun x => x / mx * s)
      else List.replicate P.length 0

/-- Modelled from the spec: the per-age value that §4.3 of the spec and
claim C1 describe, with the per-clone probability obtained by applying
the probability approximator to the *real* trial count
`N = a * divisions_per_year` (no truncation), for every `C`.  Used to
compare the spec's wording against `predictOne`. -/
noncomputable def MutationAccumulationModel.predictSpecOne
    (m : MutationAccumulationModel) (a : ℝ) : ℝ :=
  let p_eff := m.p * (1 - m.r)
  let N := a * m.divisions_per_year
  let p_cell := binomial_probability N m.C p_eff
  1 - (1 - p_cell) ^ m.M

/-- Per-age value matching the code: the approximator is applied to the
trial count truncated toward zero (Python's `int`) when `C ≠ 1`, and to
the real trial count when `C = 1`.  This differs from `predictOne` only
in that the `C = 1` per-clone probability goes through
`binomial_probability` instead of the inlined closed form. -/
noncomputable def MutationAccumulationModel.predictSpecTruncOne
    (m : MutationAccumulationModel) (a : ℝ) : ℝ :=
  let p_eff := m.p * (1 - m.r)
  let N := a * m.divisions_per_year
  let p_cell :=
    if m.C = 1 then binomial_probability N 1 p_eff
    else binomial_probability (pyint N) m.C p_eff
  1 - (1 - p_cell) ^ m.M

/-! ### Fit statistics (`plot_residual_analysis`, `src/visualization.py`) -/

/-- Arithmetic mean of a list of reals. -/
noncomputable def mean (xs : List ℝ) : ℝ := xs.sum / xs.length

/-- Element-wise residuals `observed - predicted`
(`residuals = rates_obs - rates_pred` in `plot_residual_analysis`). -/
def residualsOf (obs pred : List ℝ) : List ℝ :=
  List.zipWith (fun o q => o - q) obs pred

/-- Modelled from sklearn's `mean_squared_error`: mean of the squared
residuals. -/
noncomputable def mean_squared_error (obs pred : List ℝ) : ℝ :=
  mean ((residualsOf obs pred).map (fun t => t ^ 2))

/-- Modelled from sklearn's `mean_absolute_error`: mean of the absolute
residuals. -/
noncomputable def mean_absolute_error (obs pred : List ℝ) : ℝ :=
  mean ((residualsOf obs pred).map (fun t => |t|))

/-- Modelled from sklearn's `r2_score`: `1 - SS_res / SS_tot`, with the
degenerate zero-variance case returning `1` for a perfect fit and `0`
otherwise. -/
noncomputable def r2_score (obs pred : List ℝ) : ℝ :=
  let ssres := ((residualsOf obs pred).map (fun t => t ^ 2)).sum
  let sstot := (obs.map (fun o => (o - mean obs) ^ 2)).sum
  if sstot = 0 then (if ssres = 0 then 1 else 0) else 1 - ssres / sstot

/-- The statistics dictionary returned by `plot_residual_analysis`
(`src/visualization.py`, the `FitEvaluator` of the spec). -/
structure FitReport where
  mse : ℝ
  r2 : ℝ
  mae : ℝ
  rmse : ℝ
  residuals : List ℝ

/-- Embedding of the value returned by `plot_residual_analysis`
(`src/visualization.py`): the plotting is side-effect-only, the returned
dictionary carries `mse`, `r2`, `mae`, `rmse = sqrt(mse)` and the
residual vector. -/
noncomputable def plot_residual_analysis (obs pred : List ℝ) : FitReport :=
  { mse := mean_squared_error obs pred
    r2 := r2_score obs pred
    mae := mean_absolute_error obs pred
    rmse := Real.sqrt (mean_squared_error obs pred)
    residuals := residualsOf obs pred }

/-! ### Age-incidence curve extraction (`prepare_age_incidence_data`,
`src/models.py`) -/

/-- One row of the age-incidence DataFrame handed to
`prepare_age_incidence_data`: the `AGE` label, the `YEAR` as coerced by
`pd.to_numeric(..., errors="coerce")` (`none` models NaN/uncoercible),
and the `RATE` (`none` models NaN from the `"~"` missing marker). -/
structure AgeRow where
  AGE : String
  YEAR : Option ℤ
  RATE : Option ℝ

/-- The `AGE_MID` column value of a row. -/
def rowMid (row : AgeRow) : Option ℚ := age_group_to_mid row.AGE

/-- Sort key of a row: its `AGE_MID` (defined, on the rows that survive
the `notna` filter). -/
def keyv (row : AgeRow) : ℚ := (rowMid row).getD 0

/-- Ordering used by `sort_values("AGE_MID")`. -/
def rowLE (a b : AgeRow) : Prop := keyv a ≤ keyv b

instance : DecidableRel rowLE :=
  fun a b => inferInstanceAs (Decidable (keyv a ≤ keyv b))

instance : IsTotal AgeRow rowLE := ⟨fun a b => le_total (keyv a) (keyv b)⟩

instance : IsTrans AgeRow rowLE := ⟨fun _ _ _ h h' => le_trans h h'⟩

/-- Rows surviving the two filters of `prepare_age_incidence_data`:
`AGE_MID` not NaN, then `YEAR == target_year`. -/
def selectedRows (rows : List AgeRow) (target_year : ℤ) : List AgeRow :=
  (rows.filter (fun row => (rowMid row).isSome)).filter
    (fun row => row.YEAR = some target_year)

/-- Embedding of `prepare_age_incidence_data` (`src/models.py`): compute
`AGE_MID`, drop NaN midpoints, keep the target year, sort by `AGE_MID`
and return the `(ages, rates)` columns.  `sort_values` is modelled by a
comparison sort on the `AGE_MID` key (`pandas` uses quicksort; on
pairwise-distinct keys every comparison sort agrees). -/
def prepare_age_incidence_data (rows : List AgeRow) (target_year : ℤ) :
    List ℚ × List (Option ℝ) :=
  let sorted := (selectedRows rows target_year).insertionSort rowLE
  (sorted.map keyv, sorted.map (fun row => row.RATE))

/-! ### Age-incidence curve extraction per site
(`get_site_age_incidence`, `src/data_loader.py`) -/

/-- One row of the raw BYAGE table as consumed by
`get_site_age_incidence`: the filter columns `EVENT_TYPE`, `RACE`,
`SITE`, the group keys `AGE` and `YEAR` (the latter as coerced by
`pd.to_numeric(..., errors="coerce")`, `none` modelling NaN), and the
numeric columns `COUNT` and `POPULATION` (`none` models NaN from the
`"~"` missing marker).  Other columns (`SEX`, confidence intervals, …)
play no role in the computation and are omitted; several rows may share
an `(AGE, YEAR)` pair (e.g. one row per sex), which is what the
group-by aggregates over. -/
structure ByAgeRow where
  EVENT_TYPE : String
  RACE : String
  SITE : String
  AGE : String
  YEAR : Option ℤ
  COUNT : Option ℝ
  POPULATION : Option ℝ

/-- The site/race/event filter of `get_site_age_incidence`. -/
def siteFilter (by_age : List ByAgeRow) (site_name : String) : List ByAgeRow :=
  by_age.filter (fun row =>
    row.EVENT_TYPE = "Incidence" ∧ row.RACE = "All Races" ∧ row.SITE = site_name)

/-- The distinct `(AGE, YEAR)` group keys, in first-occurrence order.
`pandas` sorts group keys; the subsequent `sort_values("AGE_MID")`
makes the intermediate order irrelevant to the returned arrays except
among equal midpoints, where `pandas`' unstable quicksort leaves the
order unspecified anyway. -/
def groupKeys (rows : List ByAgeRow) : List (String × Option ℤ) :=
  rows.foldl
    (fun acc row =>
      if (row.AGE, row.YEAR) ∈ acc then acc else acc ++ [(row.AGE, row.YEAR)])
    []

/-- `pandas`' default `sum` of a numeric column: NaN entries are
skipped, and an empty or all-NaN column sums to `0.0`. -/
def sumSkipna (l : List (Option ℝ)) : ℝ := (l.map (fun x => x.getD 0)).sum

/-- Aggregated `COUNT` of one `(AGE, YEAR)` group. -/
noncomputable def groupCount (rows : List ByAgeRow)
    (key : String × Option ℤ) : ℝ :=
  sumSkipna ((rows.filter (fun row => (row.AGE, row.YEAR) = key)).map
    (fun row => row.COUNT))

/-- Aggregated `POPULATION` of one `(AGE, YEAR)` group. -/
noncomputable def groupPopulation (rows : List ByAgeRow)
    (key : String × Option ℤ) : ℝ :=
  sumSkipna ((rows.filter (fun row => (row.AGE, row.YEAR) = key)).map
    (fun row => row.POPULATION))

/-- One row of the aggregated frame of `get_site_age_incidence`, with
the derived `RATE` and `AGE_MID` columns.  `RATE = none` models the
NaN/inf that `pandas` float division produces when the aggregated
population is zero (`0/0` is NaN, `x/0` is inf). -/
structure AggRow where
  AGE : String
  YEAR : Option ℤ
  RATE : Option ℝ
  AGE_MID : Option ℚ

/-- The aggregated row of one `(AGE, YEAR)` group:
`RATE = COUNT_sum / POPULATION_sum * 100000`, `AGE_MID` from the age
label. -/
noncomputable def aggRowFor (rows : List ByAgeRow)
    (key : String × Option ℤ) : AggRow :=
  { AGE := key.1
    YEAR := key.2
    RATE := if groupPopulation rows key = 0 then none
            else some (groupCount rows key / groupPopulation rows key * 100000)
    AGE_MID := age_group_to_mid key.1 }

/-- The `groupby` aggregation of `get_site_age_incidence`: one row per
distinct `(AGE, YEAR)` key, with summed counts and populations and the
derived `RATE` and `AGE_MID` columns. -/
noncomputable def aggregate (rows : List ByAgeRow) : List AggRow :=
  (groupKeys rows).map (aggRowFor rows)

/-- Sort key of an aggregated row: its `AGE_MID` (defined on the rows
that survive the `notna` filter). -/
def aggKey (g : AggRow) : ℚ := g.AGE_MID.getD 0

/-- Ordering used by `sort_values("AGE_MID")` on the aggregated frame. -/
def aggLE (g g' : AggRow) : Prop := aggKey g ≤ aggKey g'

instance : DecidableRel aggLE :=
  fun g g' => inferInstanceAs (Decidable (aggKey g ≤ aggKey g'))

instance : IsTotal AggRow aggLE := ⟨fun g g' => le_total (aggKey g) (aggKey g')⟩

instance : IsTrans AggRow aggLE := ⟨fun _ _ _ h h' => le_trans h h'⟩

/-- Aggregated rows surviving the two filters of
`get_site_age_incidence`: `AGE_MID` not NaN, then `YEAR == target_year`. -/
noncomputable def selectedGroups (by_age : List ByAgeRow) (site_name : String)
    (target_year : ℤ) : List AggRow :=
  ((aggregate (siteFilter by_age site_name)).filter
      (fun g => g.AGE_MID.isSome)).filter
    (fun g => g.YEAR = some target_year)

/-- Embedding of `get_site_age_incidence` (`src/data_loader.py`): filter
to incidence / all races / the given site, return `none` when nothing
matches (the source's `(None, None, df_site)` early exit), otherwise
aggregate counts and populations over `(AGE, YEAR)` (summing over sex),
derive rates and age midpoints, drop NaN midpoints, keep the target
year, sort by `AGE_MID`, and return the `(ages, rates)` columns. -/
noncomputable def get_site_age_incidence (by_age : List ByAgeRow)
    (site_name : String) (target_year : ℤ) :
    Option (List ℚ × List (Option ℝ)) :=
  if (siteFilter by_age site_name).isEmpty then none
  else
    some
      (((selectedGroups by_age site_name target_year).insertionSort aggLE).map
          aggKey,
        ((selectedGroups by_age site_name target_year).insertionSort aggLE).map
          (fun g => g.RATE))

/-! ### List helper lemmas -/

theorem takeWhile_eq_self_of_all {α} (p : α → Bool) {l : List α}
    (h : ∀ c ∈ l, p c = true) : l.takeWhile p = l := by
  induction l with
  | nil => rfl
  | cons a t ih =>
      simp only [List.takeWhile_cons, h a (List.mem_cons_self a t), if_true]
      simp [ih fun c hc => h c (List.mem_cons_of_mem a hc)]

theorem dropWhile_eq_nil_of_all {α} (p : α → Bool) {l : List α}
    (h : ∀ c ∈ l, p c = true) : l.dropWhile p = [] := by
  induction l with
  | nil => rfl
  | cons a t ih =>
      simp only [List.dropWhile_cons, h a (List.mem_cons_self a t), if_true]
      exact ih fun c hc => h c (List.mem_cons_of_mem a hc)

theorem dropWhile_eq_self_of_all {α} (p : α → Bool) {l : List α}
    (h : ∀ c ∈ l, p c = false) : l.dropWhile p = l := by
  cases l with
  | nil => rfl
  | cons a t => simp [List.dropWhile_cons, h a (List.mem_cons_self a t)]

theorem takeWhile_append_of_all {α} (p : α → Bool) {l : List α} (l' : List α)
    (h : ∀ c ∈ l, p c = true) : (l ++ l').takeWhile p = l ++ l'.takeWhile p := by
  induction l with
  | nil => simp
  | cons a t ih =>
      simp only [List.cons_append, List.takeWhile_cons,
        h a (List.mem_cons_self a t), if_true]
      simp [ih fun c hc => h c (List.mem_cons_of_mem a hc)]

theorem dropWhile_append_of_all {α} (p : α → Bool) {l : List α} (l' : List α)
    (h : ∀ c ∈ l, p c = true) : (l ++ l').dropWhile p = l'.dropWhile p := by
  induction l with
  | nil => simp
  | cons a t ih =>
      simp only [List.cons_append, List.dropWhile_cons,
        h a (List.mem_cons_self a t), if_true]
      exact ih fun c hc => h c (List.mem_cons_of_mem a hc)

/-! ### Character facts for digit strings -/

theorem digit_not_space {c : Char} (h : c.isDigit = true) : isPySpace c = false := by
  cases hs : isPySpace c with
  | false => rfl
  | true =>
      exfalso
      simp only [isPySpace, Bool.or_eq_true, beq_iff_eq] at hs
      rcases hs with ((((rfl | rfl) | rfl) | rfl) | rfl) | rfl <;> simp at h

theorem digit_bne_of_ne {c d : Char} (h : c.isDigit = true)
    (hd : d.isDigit = false) : (c != d) = true := by
  cases hb : (c != d) with
  | true => rfl
  | false =>
      exfalso
      have : c = d := by simpa using hb
      subst this
      rw [h] at hd
      exact Bool.true_eq_false.mp hd

theorem digit_beq_plus {c : Char} (h : c.isDigit = true) : (c == '+') = false := by
  have := digit_bne_of_ne h (show ('+').isDigit = false by decide)
  simpa [bne] using this

/-! ### Parser lemmas on well-formed labels -/

theorem contains_eq_false_of_not_mem {l : List Char} {c : Char} (h : ¬ (c ∈ l)) :
    l.contains c = false := by
  cases hb : l.contains c with
  | false => rfl
  | true =>
      exact absurd (by simpa using List.contains_iff_exists_mem_beq.mp hb) h

theorem contains_eq_true_of_mem {l : List Char} {c : Char} (h : c ∈ l) :
    l.contains c = true :=
  List.elem_eq_true_of_mem h

theorem pytrim_eq_self_of_all {l : List Char}
    (hns : ∀ c ∈ l, isPySpace c = false) : pytrim l = l := by
  unfold pytrim
  rw [dropWhile_eq_self_of_all _ hns,
    dropWhile_eq_self_of_all _ (fun c hc => hns c (List.mem_reverse.mp hc)),
    List.reverse_reverse]

theorem pytrim_eq_self_of_digits {l : List Char}
    (h : ∀ c ∈ l, c.isDigit = true) : pytrim l = l :=
  pytrim_eq_self_of_all fun c hc => digit_not_space (h c hc)

theorem pyfloatUnsigned_digits {l : List Char} (hne : l ≠ [])
    (h : ∀ c ∈ l, c.isDigit = true) :
    pyfloatUnsigned l = some ((digitsVal l : ℚ)) := by
  have hnd : ∀ c ∈ l, (c != '.') = true :=
    fun c hc => digit_bne_of_ne (h c hc) (by decide)
  unfold pyfloatUnsigned
  rw [takeWhile_eq_self_of_all _ hnd, dropWhile_eq_nil_of_all _ hnd]
  simp [hne, h]
  exact h

theorem pyfloat_digits {l : List Char} (hne : l ≠ [])
    (h : ∀ c ∈ l, c.isDigit = true) :
    pyfloat l = some ((digitsVal l : ℚ)) := by
  obtain ⟨c, u, rfl⟩ := List.exists_cons_of_ne_nil hne
  have hc := h c (List.mem_cons_self c u)
  unfold pyfloat
  rw [pytrim_eq_self_of_digits h]
  have hcm : ¬ (c = '-') := by
    intro hx; subst hx; simp at hc
  have hcp : ¬ (c = '+') := by
    intro hx; subst hx; simp at hc
  simp only [hcm, hcp, if_false]
  exact pyfloatUnsigned_digits hne h

theorem label_range_facts {ds1 ds2 : List Char}
    (h1 : ds1 ≠ []) (h2 : ds2 ≠ [])
    (hd1 : ∀ c ∈ ds1, c.isDigit = true) (hd2 : ∀ c ∈ ds2, c.isDigit = true) :
    pytrim (ds1 ++ '-' :: ds2) = ds1 ++ '-' :: ds2 ∧
    ds1 ++ '-' :: ds2 ≠ "All Ages".data ∧
    endsWithPlus (ds1 ++ '-' :: ds2) = false ∧
    (ds1 ++ '-' :: ds2).contains '-' = true ∧
    (ds1 ++ '-' :: ds2).takeWhile (· != '-') = ds1 ∧
    ((ds1 ++ '-' :: ds2).dropWhile (· != '-')).drop 1 = ds2 := by
  obtain ⟨a, as, rfl⟩ := List.exists_cons_of_ne_nil h1
  have ha := hd1 a (List.mem_cons_self a as)
  refine ⟨?_, ?_, ?_, ?_, ?_, ?_⟩
  · refine pytrim_eq_self_of_all fun c hc => ?_
    rcases List.mem_append.mp hc with hc1 | hc2
    · exact digit_not_space (hd1 c hc1)
    · rcases List.mem_cons.mp hc2 with rfl | hc3
      · decide
      · exact digit_not_space (hd2 c hc3)
  · intro heq
    rw [List.cons_append] at heq
    have : a = 'A' := (List.cons.injEq _ _ _ _).mp heq |>.1
    subst this
    simp at ha
  · obtain ⟨b, bs, hb⟩ := List.exists_cons_of_ne_nil
      (fun hrev => h2 (List.reverse_eq_nil_iff.mp hrev) : ds2.reverse ≠ [])
    have hbm : b ∈ ds2 := List.mem_reverse.mp (hb ▸ List.mem_cons_self b bs)
    simp only [endsWithPlus, List.reverse_append, List.reverse_cons, hb]
    simp [digit_beq_plus (hd2 b hbm)]
  · exact contains_eq_true_of_mem (List.mem_append.mpr (Or.inr (List.mem_cons_self _ _)))
  · rw [takeWhile_append_of_all _ _
      (fun c hc => digit_bne_of_ne (hd1 c hc) (by decide))]
    simp [List.takeWhile_cons]
  · rw [dropWhile_append_of_all _ _
      (fun c hc => digit_bne_of_ne (hd1 c hc) (by decide))]
    simp [List.dropWhile_cons]

theorem label_plus_facts {ds1 : List Char} (h1 : ds1 ≠ [])
    (hd1 : ∀ c ∈ ds1, c.isDigit = true) :
    pytrim (ds1 ++ ['+']) = ds1 ++ ['+'] ∧
    ds1 ++ ['+'] ≠ "All Ages".data ∧
    endsWithPlus (ds1 ++ ['+']) = true ∧
    rstripPlus (ds1 ++ ['+']) = ds1 := by
  obtain ⟨a, as, rfl⟩ := List.exists_cons_of_ne_nil h1
  have ha := hd1 a (List.mem_cons_self a as)
  refine ⟨?_, ?_, ?_, ?_⟩
  · refine pytrim_eq_self_of_all fun c hc => ?_
    rcases List.mem_append.mp hc with hc1 | hc2
    · exact digit_not_space (hd1 c hc1)
    · rcases List.mem_cons.mp hc2 with rfl | hc3
      · decide
      · simp at hc3
  · intro heq
    rw [List.cons_append] at heq
    have : a = 'A' := (List.cons.injEq _ _ _ _).mp heq |>.1
    subst this
    simp at ha
  · simp [endsWithPlus, List.reverse_append]
  · unfold rstripPlus
    have hrev : ((a :: as) ++ ['+']).reverse = '+' :: (a :: as).reverse := by
      simp [List.reverse_append]
    rw [hrev, List.dropWhile_cons]
    simp only [beq_self_eq_true, if_true]
    rw [dropWhile_eq_self_of_all _ (fun c hc =>
      digit_beq_plus (hd1 c (List.mem_reverse.mp hc)))]
    exact List.reverse_reverse _

theorem age_group_to_start_eval (l : List Char) :
    age_group_to_start (String.mk l)
      = (if pytrim l = "All Ages".data then some (-1)
         else if endsWithPlus (pytrim l) then pyfloat (rstripPlus (pytrim l))
         else if (pytrim l).contains '-' then
           pyfloat ((pytrim l).takeWhile (· != '-'))
         else none) := rfl

theorem age_group_to_mid_eval (l : List Char) :
    age_group_to_mid (String.mk l)
      = (if pytrim l = "All Ages".data then none
         else if endsWithPlus (pytrim l) then
           (pyfloat (rstripPlus (pytrim l))).map (fun v => v + 5/2)
         else if (pytrim l).contains '-' then
           (if (((pytrim l).dropWhile (· != '-')).drop 1).contains '-' then none
            else
              match pyfloat ((pytrim l).takeWhile (· != '-')),
                  pyfloat (((pytrim l).dropWhile (· != '-')).drop 1) with
              | some a, some b => some ((a + b) / 2)
              | _, _ => none)
         else none) := rfl

theorem age_group_to_start_range {ds1 ds2 : List Char}
    (h1 : ds1 ≠ []) (h2 : ds2 ≠ [])
    (hd1 : ∀ c ∈ ds1, c.isDigit = true) (hd2 : ∀ c ∈ ds2, c.isDigit = true) :
    age_group_to_start (String.mk (ds1 ++ '-' :: ds2))
      = some ((digitsVal ds1 : ℚ)) := by
  obtain ⟨htrim, hAA, hplus, hcont, htake, -⟩ := label_range_facts h1 h2 hd1 hd2
  rw [age_group_to_start_eval, htrim, if_neg hAA, hplus]
  rw [if_neg (by simp), hcont, if_pos rfl, htake, pyfloat_digits h1 hd1]

theorem age_group_to_start_plus {ds1 : List Char} (h1 : ds1 ≠ [])
    (hd1 : ∀ c ∈ ds1, c.isDigit = true) :
    age_group_to_start (String.mk (ds1 ++ ['+'])) = some ((digitsVal ds1 : ℚ)) := by
  obtain ⟨htrim, hAA, hplus, hstrip⟩ := label_plus_facts h1 hd1
  rw [age_group_to_start_eval, htrim, if_neg hAA, hplus, if_pos rfl, hstrip,
    pyfloat_digits h1 hd1]

theorem age_group_to_mid_range {ds1 ds2 : List Char}
    (h1 : ds1 ≠ []) (h2 : ds2 ≠ [])
    (hd1 : ∀ c ∈ ds1, c.isDigit = true) (hd2 : ∀ c ∈ ds2, c.isDigit = true) :
    age_group_to_mid (String.mk (ds1 ++ '-' :: ds2))
      = some (((digitsVal ds1 : ℚ) + (digitsVal ds2 : ℚ)) / 2) := by
  obtain ⟨htrim, hAA, hplus, hcont, htake, hdrop⟩ := label_range_facts h1 h2 hd1 hd2
  rw [age_group_to_mid_eval, htrim, if_neg hAA, hplus]
  rw [if_neg (by simp), hcont, if_pos rfl, hdrop, htake,
    contains_eq_false_of_not_mem (fun hm => by simpa using hd2 '-' hm)]
  rw [if_neg (by simp), pyfloat_digits h1 hd1, pyfloat_digits h2 hd2]

theorem age_group_to_mid_plus {ds1 : List Char} (h1 : ds1 ≠ [])
    (hd1 : ∀ c ∈ ds1, c.isDigit = true) :
    age_group_to_mid (String.mk (ds1 ++ ['+']))
      = some ((digitsVal ds1 : ℚ) + 5/2) := by
  obtain ⟨htrim, hAA, hplus, hstrip⟩ := label_plus_facts h1 hd1
  rw [age_group_to_mid_eval, htrim, if_neg hAA, hplus, if_pos rfl, hstrip,
    pyfloat_digits h1 hd1]
  rfl

/-! ### Claim C7 -/

/-- C7.  On well-formed age-group labels the parsers follow the stated
conventions exactly — `toStart "lo-hi" = lo`, `toStart "lo+" = lo`,
`toStart "All Ages" = -1`, `toMidpoint "lo-hi" = (lo+hi)/2`,
`toMidpoint "lo+" = lo + 2.5`, `toMidpoint "All Ages"` undefined — and
malformed labels give the undefined sentinel (modelled by `none`, the
NaN of the Python code, which is propagated rather than raised).  The
particular values `toStart "1-4" = 1`, `toStart "70-74" = 70`,
`toStart "85+" = 85`, `toMidpoint "1-4" = 2.5`,
`toMidpoint "70-74" = 72`, `toMidpoint "85+" = 87.5` hold. -/
theorem C7_age_group_parser_conventions :
    (∀ ds1 ds2 : List Char, ds1 ≠ [] → ds2 ≠ [] →
      (∀ c ∈ ds1, c.isDigit = true) → (∀ c ∈ ds2, c.isDigit = true) →
      age_group_to_start (String.mk (ds1 ++ '-' :: ds2))
          = some ((digitsVal ds1 : ℚ)) ∧
      age_group_to_mid (String.mk (ds1 ++ '-' :: ds2))
          = some (((digitsVal ds1 : ℚ) + (digitsVal ds2 : ℚ)) / 2)) ∧
    (∀ ds1 : List Char, ds1 ≠ [] → (∀ c ∈ ds1, c.isDigit = true) →
      age_group_to_start (String.mk (ds1 ++ ['+'])) = some ((digitsVal ds1 : ℚ)) ∧
      age_group_to_mid (String.mk (ds1 ++ ['+']))
          = some ((digitsVal ds1 : ℚ) + 5/2)) ∧
    age_group_to_start "All Ages" = some (-1) ∧
    age_group_to_mid "All Ages" = none ∧
    age_group_to_start "invalid" = none ∧
    age_group_to_mid "invalid" = none ∧
    age_group_to_start "" = none ∧
    age_group_to_mid "" = none ∧
    age_group_to_start "1-4" = some 1 ∧
    age_group_to_start "70-74" = some 70 ∧
    age_group_to_start "85+" = some 85 ∧
    age_group_to_mid "1-4" = some (5/2) ∧
    age_group_to_mid "70-74" = some 72 ∧
    age_group_to_mid "85+" = some (175/2) := by
  refine ⟨fun ds1 ds2 h1 h2 hd1 hd2 =>
      ⟨age_group_to_start_range h1 h2 hd1 hd2, age_group_to_mid_range h1 h2 hd1 hd2⟩,
    fun ds1 h1 hd1 =>
      ⟨age_group_to_start_plus h1 hd1, age_group_to_mid_plus h1 hd1⟩,
    rfl, rfl, rfl, rfl, rfl, rfl, ?_, ?_, ?_, ?_, ?_, ?_⟩
  · have h := @age_group_to_start_range ['1'] ['4']
      (by decide) (by decide) (by decide) (by decide)
    rw [show ("1-4" : String) = String.mk (['1'] ++ '-' :: ['4']) from rfl, h]
    norm_num [show digitsVal ['1'] = 1 from by decide]
  · have h := @age_group_to_start_range ['7','0'] ['7','4']
      (by decide) (by decide) (by decide) (by decide)
    rw [show ("70-74" : String) = String.mk (['7','0'] ++ '-' :: ['7','4']) from rfl, h]
    norm_num [show digitsVal ['7','0'] = 70 from by decide]
  · have h := @age_group_to_start_plus ['8','5'] (by decide) (by decide)
    rw [show ("85+" : String) = String.mk (['8','5'] ++ ['+']) from rfl, h]
    norm_num [show digitsVal ['8','5'] = 85 from by decide]
  · have h := @age_group_to_mid_range ['1'] ['4']
      (by decide) (by decide) (by decide) (by decide)
    rw [show ("1-4" : String) = String.mk (['1'] ++ '-' :: ['4']) from rfl, h]
    norm_num [show digitsVal ['1'] = 1 from by decide,
      show digitsVal ['4'] = 4 from by decide]
  · have h := @age_group_to_mid_range ['7','0'] ['7','4']
      (by decide) (by decide) (by decide) (by decide)
    rw [show ("70-74" : String) = String.mk (['7','0'] ++ '-' :: ['7','4']) from rfl, h]
    norm_num [show digitsVal ['7','0'] = 70 from by decide,
      show digitsVal ['7','4'] = 74 from by decide]
  · have h := @age_group_to_mid_plus ['8','5'] (by decide) (by decide)
    rw [show ("85+" : String) = String.mk (['8','5'] ++ ['+']) from rfl, h]
    norm_num [show digitsVal ['8','5'] = 85 from by decide]

/-- Witness for C7: the universal clauses applied to the concrete
well-formed label `"12-34"`. -/
theorem C7_age_group_parser_conventions_witness :
    age_group_to_start (String.mk (['1','2'] ++ '-' :: ['3','4']))
        = some ((digitsVal ['1','2'] : ℚ)) ∧
    age_group_to_mid (String.mk (['1','2'] ++ '-' :: ['3','4']))
        = some (((digitsVal ['1','2'] : ℚ) + (digitsVal ['3','4'] : ℚ)) / 2) :=
  C7_age_group_parser_conventions.1 ['1','2'] ['3','4']
    (by decide) (by decide) (by decide) (by decide)

/-! ### Basic facts about the probability approximator -/

theorem poissonCdfSum_nonneg (k : ℕ) {lam : ℝ} (h : 0 ≤ lam) :
    0 ≤ poissonCdfSum k lam :=
  Finset.sum_nonneg fun i _ =>
    div_nonneg (mul_nonneg (Real.exp_pos _).le (pow_nonneg h i)) (Nat.cast_nonneg _)

theorem poissonCdfSum_le_one (k : ℕ) {lam : ℝ} (h : 0 ≤ lam) :
    poissonCdfSum k lam ≤ 1 := by
  have hsum : poissonCdfSum k lam
      = Real.exp (-lam) * ∑ i ∈ Finset.range k, lam ^ i / (Nat.factorial i : ℝ) := by
    rw [Finset.mul_sum]
    exact Finset.sum_congr rfl fun i _ => by ring
  rw [hsum]
  calc Real.exp (-lam) * ∑ i ∈ Finset.range k, lam ^ i / (Nat.factorial i : ℝ)
      ≤ Real.exp (-lam) * Real.exp lam :=
        mul_le_mul_of_nonneg_left (Real.sum_le_exp_of_nonneg h k) (Real.exp_pos _).le
    _ = 1 := by rw [← Real.exp_add]; simp

theorem binomial_probability_mem_Icc {n p : ℝ} (k : ℕ) (hn : 0 ≤ n)
    (hp0 : 0 ≤ p) (hp1 : p ≤ 1) :
    0 ≤ binomial_probability n k p ∧ binomial_probability n k p ≤ 1 := by
  unfold binomial_probability
  split
  · constructor
    · have h : (1 - p) ^ n ≤ 1 := Real.rpow_le_one (by linarith) (by linarith) hn
      linarith
    · have h : 0 ≤ (1 - p) ^ n := Real.rpow_nonneg (by linarith) n
      linarith
  · split
    · norm_num
    · split
      · norm_num
      · have hlam : 0 ≤ n * p := mul_nonneg hn hp0
        have h1 := poissonCdfSum_nonneg k hlam
        have h2 := poissonCdfSum_le_one k hlam
        constructor <;> linarith

/-! ### Claim C2 -/

/-- C2.  For every real trial count `n ≥ 0` (fractional included) and
`p ∈ (0,1)`, the approximator at hit threshold `k = 1` returns exactly
the closed form `1 - (1-p)^n`. -/
theorem C2_single_hit_exact (n p : ℝ) (hn : 0 ≤ n) (hp0 : 0 < p) (hp1 : p < 1) :
    binomial_probability n 1 p = 1 - (1 - p) ^ n := by
  unfold binomial_probability
  simp

/-- Witness for C2 at the fractional trial count `n = 3/2`, `p = 1/2`. -/
theorem C2_single_hit_exact_witness :
    (0:ℝ) ≤ 3/2 ∧ (0:ℝ) < 1/2 ∧ (1/2:ℝ) < 1 ∧
      binomial_probability (3/2) 1 (1/2) = 1 - (1 - 1/2) ^ ((3/2 : ℝ)) :=
  ⟨by norm_num, by norm_num, by norm_num,
    C2_single_hit_exact (3/2) (1/2) (by norm_num) (by norm_num) (by norm_num)⟩

/-! ### Claim C3 -/

/-- C3 counterexample.  The claim quantifies "returns exactly 0" over
every `n < k` including `k = 1` with fractional `n ∈ (0,1)`, but the
`k == 1` branch of `_binomial_probability` takes precedence over the
`k > n` check: at `n = 1/2`, `p = 3/4`, `k = 1` the code returns
`1 - (1/4)^(1/2) = 1/2`, not `0`. -/
theorem C3_counterexample :
    (1/2 : ℝ) < ((1 : ℕ) : ℝ) ∧ (0:ℝ) < 3/4 ∧ (3/4:ℝ) < 1 ∧
      binomial_probability (1/2) 1 (3/4) = 1/2 ∧ (1/2 : ℝ) ≠ 0 := by
  refine ⟨by norm_num, by norm_num, by norm_num, ?_, by norm_num⟩
  unfold binomial_probability
  simp only [if_pos rfl]
  have h4 : ((1:ℝ) - 3/4) = (1/2)^(2:ℕ) := by norm_num
  have h : ((1:ℝ) - 3/4) ^ ((1/2 : ℝ)) = 1/2 := by
    rw [← Real.sqrt_eq_rpow, h4, Real.sqrt_sq (by norm_num)]
  rw [h]
  norm_num

theorem binomial_probability_eq_zero_of_lt {n p : ℝ} {k : ℕ} (hk : 2 ≤ k)
    (hn : n < (k : ℝ)) : binomial_probability n k p = 0 := by
  unfold binomial_probability
  rw [if_neg (by omega), if_pos hn]

/-- C3 amended.  For every integer threshold `k ≥ 2` (the `k = 1` case
instead falls to the exact closed form, which is nonzero for `n > 0`)
and every trial count `n < k`, the approximator returns exactly 0. -/
theorem C3_below_threshold_zero (n p : ℝ) (k : ℕ) (hk : 2 ≤ k)
    (hn : n < (k : ℝ)) : binomial_probability n k p = 0 :=
  binomial_probability_eq_zero_of_lt hk hn

/-- Witness for the amended C3 at `n = 2`, `k = 3`, `p = 1/2`. -/
theorem C3_below_threshold_zero_witness :
    2 ≤ 3 ∧ (2:ℝ) < ((3:ℕ) : ℝ) ∧ binomial_probability 2 3 (1/2) = 0 :=
  ⟨by norm_num, by norm_num,
    C3_below_threshold_zero 2 (1/2) 3 (by norm_num) (by norm_num)⟩

/-! ### Claim C4 -/

theorem pyint_nonneg {x : ℝ} (hx : 0 ≤ x) : 0 ≤ pyint x := by
  unfold pyint
  rw [if_pos hx]
  exact_mod_cast Int.floor_nonneg.mpr hx

theorem predictOne_unfold (m : MutationAccumulationModel) (a : ℝ) :
    m.predictOne a
      = 1 - (1 - (if m.C = 1
            then 1 - (1 - m.p * (1 - m.r)) ^ (a * m.divisions_per_year)
            else binomial_probability (pyint (a * m.divisions_per_year)) m.C
                   (m.p * (1 - m.r)))) ^ m.M := rfl

theorem p_eff_mem_Icc {m : MutationAccumulationModel} (hp0 : 0 < m.p)
    (hp1 : m.p < 1) (hr0 : 0 ≤ m.r) (hr1 : m.r ≤ 1) :
    0 ≤ m.p * (1 - m.r) ∧ m.p * (1 - m.r) ≤ 1 := by
  constructor
  · exact mul_nonneg hp0.le (by linarith)
  · calc m.p * (1 - m.r) ≤ m.p * 1 :=
          mul_le_mul_of_nonneg_left (by linarith) hp0.le
      _ ≤ 1 := by linarith

theorem p_cell_mem_Icc {m : MutationAccumulationModel} (hp0 : 0 < m.p)
    (hp1 : m.p < 1) (hr0 : 0 ≤ m.r) (hr1 : m.r ≤ 1) {N : ℝ} (hN : 0 ≤ N) :
    0 ≤ (if m.C = 1 then 1 - (1 - m.p * (1 - m.r)) ^ N
         else binomial_probability (pyint N) m.C (m.p * (1 - m.r))) ∧
    (if m.C = 1 then 1 - (1 - m.p * (1 - m.r)) ^ N
     else binomial_probability (pyint N) m.C (m.p * (1 - m.r))) ≤ 1 := by
  obtain ⟨hpe0, hpe1⟩ := p_eff_mem_Icc hp0 hp1 hr0 hr1
  split
  · constructor
    · have h : (1 - m.p * (1 - m.r)) ^ N ≤ 1 :=
        Real.rpow_le_one (by linarith) (by linarith) hN
      linarith
    · have h : 0 ≤ (1 - m.p * (1 - m.r)) ^ N := Real.rpow_nonneg (by linarith) N
      linarith
  · exact binomial_probability_mem_Icc m.C (pyint_nonneg hN) hpe0 hpe1

theorem predictOne_mem_Icc {m : MutationAccumulationModel} (hp0 : 0 < m.p)
    (hp1 : m.p < 1) (hdpy : 0 < m.divisions_per_year)
    (hr0 : 0 ≤ m.r) (hr1 : m.r ≤ 1) {a : ℝ} (ha : 0 ≤ a) :
    0 ≤ m.predictOne a ∧ m.predictOne a ≤ 1 := by
  rw [predictOne_unfold]
  obtain ⟨hc0, hc1⟩ := p_cell_mem_Icc hp0 hp1 hr0 hr1 (mul_nonneg ha hdpy.le)
  have hpow0 : 0 ≤ (1 - (if m.C = 1
      then 1 - (1 - m.p * (1 - m.r)) ^ (a * m.divisions_per_year)
      else binomial_probability (pyint (a * m.divisions_per_year)) m.C
             (m.p * (1 - m.r)))) ^ m.M := pow_nonneg (by linarith) _
  have hpow1 : (1 - (if m.C = 1
      then 1 - (1 - m.p * (1 - m.r)) ^ (a * m.divisions_per_year)
      else binomial_probability (pyint (a * m.divisions_per_year)) m.C
             (m.p * (1 - m.r)))) ^ m.M ≤ 1 := pow_le_one₀ (by linarith) (by linarith)
  constructor <;> linarith

/-- C4.  For every valid parameter set (`p ∈ (0,1)`, `M ≥ 1`,
`divisions_per_year > 0`, `C ≥ 1`, `r ∈ [0,1]`) and every list of
non-negative ages, every value returned by `predict` lies in `[0,1]`. -/
theorem C4_predictions_in_unit_interval (m : MutationAccumulationModel)
    (hp0 : 0 < m.p) (hp1 : m.p < 1) (hM : 1 ≤ m.M)
    (hdpy : 0 < m.divisions_per_year) (hC : 1 ≤ m.C)
    (hr0 : 0 ≤ m.r) (hr1 : m.r ≤ 1)
    (ages : List ℝ) (hages : ∀ a ∈ ages, 0 ≤ a) :
    ∀ y ∈ m.predict ages, 0 ≤ y ∧ y ≤ 1 := by
  intro y hy
  obtain ⟨a, ha, rfl⟩ := List.mem_map.mp hy
  exact predictOne_mem_Icc hp0 hp1 hdpy hr0 hr1 (hages a ha)

/-- A concrete single-hit model used by several witnesses:
`p = 1/2`, `M = 1`, `divisions_per_year = 1`, `C = 1`, `r = 0`. -/
noncomputable def mW : MutationAccumulationModel :=
  { p := 1/2, M := 1, divisions_per_year := 1, C := 1, r := 0 }

/-- Witness for C4 at the concrete model `mW` and ages `[1]`. -/
theorem C4_predictions_in_unit_interval_witness :
    0 ≤ mW.predictOne 1 ∧ mW.predictOne 1 ≤ 1 :=
  C4_predictions_in_unit_interval mW (by norm_num [mW]) (by norm_num [mW])
    (by norm_num [mW]) (by norm_num [mW]) (by norm_num [mW]) (by norm_num [mW])
    (by norm_num [mW]) [1] (by norm_num) (mW.predictOne 1)
    (by simp [MutationAccumulationModel.predict])

/-! ### Claim C10 -/

theorem pyint_nonpos {x : ℝ} (hx : x ≤ 0) : pyint x ≤ 0 := by
  unfold pyint
  split
  · exact_mod_cast Int.floor_nonpos hx
  · have h := Int.ceil_le.mpr (show x ≤ ((0:ℤ):ℝ) by exact_mod_cast hx)
    exact_mod_cast h

/-- C10.  For every model with `C ≥ 2` and non-negative ages `a`, `a'`
with `⌊a * divisions_per_year⌋ = ⌊a' * divisions_per_year⌋`, `predict`
returns the same value at `a` and `a'`: the trial count is truncated to
an integer (`int(n)` in `predict`) before `_binomial_probability` is
invoked, so predictions are piecewise constant between integer division
counts. -/
theorem C10_piecewise_constant_in_age (m : MutationAccumulationModel)
    (hC : 2 ≤ m.C) (a a' : ℝ) (ha : 0 ≤ a) (ha' : 0 ≤ a')
    (hfl : ⌊a * m.divisions_per_year⌋ = ⌊a' * m.divisions_per_year⌋) :
    m.predictOne a = m.predictOne a' := by
  rw [predictOne_unfold, predictOne_unfold]
  have hC1 : ¬ (m.C = 1) := by omega
  rw [if_neg hC1, if_neg hC1]
  rcases le_or_lt 0 m.divisions_per_year with hd | hd
  · have h1 : 0 ≤ a * m.divisions_per_year := mul_nonneg ha hd
    have h2 : 0 ≤ a' * m.divisions_per_year := mul_nonneg ha' hd
    rw [show pyint (a * m.divisions_per_year)
          = ((⌊a * m.divisions_per_year⌋ : ℤ) : ℝ) from if_pos h1,
        show pyint (a' * m.divisions_per_year)
          = ((⌊a' * m.divisions_per_year⌋ : ℤ) : ℝ) from if_pos h2, hfl]
  · have h1 : a * m.divisions_per_year ≤ 0 :=
      mul_nonpos_iff.mpr (Or.inl ⟨ha, hd.le⟩)
    have h2 : a' * m.divisions_per_year ≤ 0 :=
      mul_nonpos_iff.mpr (Or.inl ⟨ha', hd.le⟩)
    have e1 : binomial_probability (pyint (a * m.divisions_per_year)) m.C
        (m.p * (1 - m.r)) = 0 :=
      binomial_probability_eq_zero_of_lt hC
        (lt_of_le_of_lt (pyint_nonpos h1) (by exact_mod_cast by omega))
    have e2 : binomial_probability (pyint (a' * m.divisions_per_year)) m.C
        (m.p * (1 - m.r)) = 0 :=
      binomial_probability_eq_zero_of_lt hC
        (lt_of_le_of_lt (pyint_nonpos h2) (by exact_mod_cast by omega))
    rw [e1, e2]

/-- A concrete two-hit model used by witnesses: `p = 1/2`, `M = 1`,
`divisions_per_year = 1`, `C = 2`, `r = 0`. -/
noncomputable def mW2 : MutationAccumulationModel :=
  { p := 1/2, M := 1, divisions_per_year := 1, C := 2, r := 0 }

/-- Witness for C10 at the concrete model `mW2` and ages `1/4`, `1/2`
(both truncate to 0 divisions). -/
theorem C10_piecewise_constant_in_age_witness :
    ⌊(1/4 : ℝ) * mW2.divisions_per_year⌋ = ⌊(1/2 : ℝ) * mW2.divisions_per_year⌋ ∧
    mW2.predictOne (1/4) = mW2.predictOne (1/2) := by
  have hfl : ⌊(1/4 : ℝ) * mW2.divisions_per_year⌋
      = ⌊(1/2 : ℝ) * mW2.divisions_per_year⌋ := by
    norm_num [mW2]
  exact ⟨hfl, C10_piecewise_constant_in_age mW2 (by norm_num [mW2]) (1/4) (1/2)
    (by norm_num) (by norm_num) hfl⟩

/-! ### Claim C1 -/

theorem predictSpecTruncOne_unfold (m : MutationAccumulationModel) (a : ℝ) :
    m.predictSpecTruncOne a
      = 1 - (1 - (if m.C = 1
            then binomial_probability (a * m.divisions_per_year) 1
                   (m.p * (1 - m.r))
            else binomial_probability (pyint (a * m.divisions_per_year)) m.C
                   (m.p * (1 - m.r)))) ^ m.M := rfl

theorem predictOne_eq_predictSpecTruncOne (m : MutationAccumulationModel)
    (a : ℝ) : m.predictOne a = m.predictSpecTruncOne a := by
  rw [predictOne_unfold, predictSpecTruncOne_unfold]
  rcases eq_or_ne m.C 1 with hC | hC
  · rw [if_pos hC, if_pos hC]
    unfold binomial_probability
    rw [if_pos rfl]
  · rw [if_neg hC, if_neg hC]

/-- C1 amended.  `predict` is element-wise in order over the input ages
and at each age computes `p_eff = p*(1-r)`, `N = a*divisions_per_year`,
`p_cell = ProbabilityApproximator(N', p_eff, C)` and
`P = 1 - (1-p_cell)^M` — but with `N' = int(N)` (truncated toward zero)
whenever `C ≥ 2`; only for `C = 1` is the real-valued `N` used. -/
theorem C1_predict_elementwise (m : MutationAccumulationModel) (ages : List ℝ) :
    m.predict ages = ages.map m.predictSpecTruncOne :=
  List.map_congr_left fun a _ => predictOne_eq_predictSpecTruncOne m a

/-- The model exhibiting the C1 counterexample: `p = 4e-11`, `M = 1`,
`divisions_per_year = 1`, `C = 2`, `r = 0`. -/
noncomputable def mC1 : MutationAccumulationModel :=
  { p := 4/10^11, M := 1, divisions_per_year := 1, C := 2, r := 0 }

theorem mC1_predictOne_eval : mC1.predictOne (5/2) = 0 := by
  have hfloor : ⌊(5/2 : ℝ)⌋ = (2 : ℤ) := by
    rw [Int.floor_eq_iff]
    norm_num
  rw [predictOne_unfold]
  simp only [mC1]
  norm_num [pyint, hfloor, binomial_probability]

theorem poissonCdfSum_two_lt_one {lam : ℝ} (h : 0 < lam) :
    poissonCdfSum 2 lam < 1 := by
  have hsum : poissonCdfSum 2 lam = Real.exp (-lam) * (1 + lam) := by
    unfold poissonCdfSum
    rw [Finset.sum_range_succ, Finset.sum_range_one]
    norm_num
    ring
  rw [hsum]
  have hlt : (1 : ℝ) + lam < Real.exp lam := by
    have := Real.add_one_lt_exp (ne_of_gt h)
    linarith
  calc Real.exp (-lam) * (1 + lam) < Real.exp (-lam) * Real.exp lam :=
        mul_lt_mul_of_pos_left hlt (Real.exp_pos _)
    _ = 1 := by rw [← Real.exp_add]; norm_num

theorem mC1_predictSpecOne_pos : 0 < mC1.predictSpecOne (5/2) := by
  have hbin : binomial_probability ((5:ℝ)/2 * 1) 2 (4/10^11 * (1 - 0))
      = 1 - poissonCdfSum 2 ((5:ℝ)/2 * 1 * (4/10^11 * (1 - 0))) := by
    unfold binomial_probability
    rw [if_neg (by norm_num), if_neg (by norm_num), if_neg (by norm_num)]
  have harg : ((5:ℝ)/2 * 1) * (4/10^11 * (1 - 0)) = 1/10^10 := by norm_num
  have hpos : 0 < 1 - poissonCdfSum 2 ((5:ℝ)/2 * 1 * (4/10^11 * (1 - 0))) := by
    rw [harg]
    have := poissonCdfSum_two_lt_one (show (0:ℝ) < 1/10^10 by norm_num)
    linarith
  show 0 < 1 - (1 - binomial_probability ((5:ℝ)/2 * 1) 2 (4/10^11 * (1 - 0))) ^ 1
  rw [hbin, pow_one]
  linarith

/-- C1 counterexample.  The claim states that the effective trial count
`N = a * divisions_per_year` is "a real number, not truncated"; but for
`C ≥ 2` `predict` passes `int(N)`.  At the valid model `mC1`
(`p = 4e-11 ∈ (0,1)`, `M = 1`, `divisions_per_year = 1`, `C = 2`,
`r = 0`) and age `5/2`, the code's truncation gives Poisson rate
`2 * 4e-11 = 8e-11 < 1e-10`, hence prediction `0`, while the claimed
un-truncated formula gives rate exactly `1e-10` (not below the cutoff)
and a strictly positive prediction. -/
theorem C1_counterexample :
    mC1.predict [5/2] ≠ [mC1.predictSpecOne (5/2)] := by
  intro h
  have h0 : mC1.predictOne (5/2) = mC1.predictSpecOne (5/2) := by
    simpa [MutationAccumulationModel.predict] using h
  rw [mC1_predictOne_eval] at h0
  exact absurd h0.symm (ne_of_gt mC1_predictSpecOne_pos)

/-! ### Claim C8 -/

theorem residualsOf_self (xs : List ℝ) :
    residualsOf xs xs = List.replicate xs.length 0 := by
  induction xs with
  | nil => rfl
  | cons a t ih =>
      simp only [residualsOf, List.zipWith_cons_cons, List.length_cons,
        List.replicate_succ, sub_self] at *
      rw [ih]

/-- C8.  On identical non-empty observed and predicted lists, the fit
report has all residuals `observed[i] - predicted[i] = 0`, `mse = 0`,
`rmse = 0`, `mae = 0` and `r2 = 1`. -/
theorem C8_perfect_fit (obs : List ℝ) (hne : obs ≠ []) :
    (plot_residual_analysis obs obs).residuals = List.replicate obs.length 0 ∧
    (plot_residual_analysis obs obs).mse = 0 ∧
    (plot_residual_analysis obs obs).rmse = 0 ∧
    (plot_residual_analysis obs obs).mae = 0 ∧
    (plot_residual_analysis obs obs).r2 = 1 := by
  have hres := residualsOf_self obs
  have hmse : mean_squared_error obs obs = 0 := by
    unfold mean_squared_error mean
    rw [hres]
    simp
  refine ⟨hres, hmse, ?_, ?_, ?_⟩
  · show Real.sqrt (mean_squared_error obs obs) = 0
    rw [hmse, Real.sqrt_zero]
  · show mean_absolute_error obs obs = 0
    unfold mean_absolute_error mean
    rw [hres]
    simp
  · show r2_score obs obs = 1
    unfold r2_score
    rw [hres]
    have hz : (List.map (fun t => (t:ℝ) ^ 2) (List.replicate obs.length 0)).sum
        = (0:ℝ) := by simp
    simp only [hz]
    split
    · simp
    · simp

/-- Witness for C8 on the concrete list `[1, 2]`. -/
theorem C8_perfect_fit_witness :
    (plot_residual_analysis [1, 2] [1, 2]).mse = 0 ∧
    (plot_residual_analysis [1, 2] [1, 2]).r2 = 1 :=
  ⟨(C8_perfect_fit [1, 2] (by simp)).2.1,
   (C8_perfect_fit [1, 2] (by simp)).2.2.2.2⟩

/-! ### Claim C6 -/

theorem predict_scaled_some (m : MutationAccumulationModel) (ages : List ℝ)
    (s : ℝ) :
    m.predict_scaled ages (some s)
      = (if 0 < listMax (m.predict ages)
         then (m.predict ages).map (fun x => x / listMax (m.predict ages) * s)
         else List.replicate (m.predict ages).length 0) := rfl

theorem predict_scaled_none (m : MutationAccumulationModel) (ages : List ℝ) :
    m.predict_scaled ages none = m.predict ages := rfl

theorem foldl_max_map_mul {c : ℝ} (hc : 0 ≤ c) (l : List ℝ) :
    ∀ a : ℝ, (l.map (fun x => x * c)).foldl max (a * c) = l.foldl max a * c := by
  induction l with
  | nil => intro a; rfl
  | cons x t ih =>
      intro a
      simp only [List.map_cons, List.foldl_cons]
      rw [← max_mul_of_nonneg _ _ hc, ih]

theorem listMax_map_mul {c : ℝ} (hc : 0 ≤ c) (l : List ℝ) :
    listMax (l.map (fun x => x * c)) = listMax l * c := by
  cases l with
  | nil => simp [listMax]
  | cons x t => exact foldl_max_map_mul hc t x

/-- C6 amended.  `predictScaled` with a *non-negative* `scaleToMax = s`
rescales so the maximum is exactly `s` provided the unscaled maximum is
*positive* (for valid parameters and non-negative ages a nonzero maximum
is automatically positive, by C4); when the unscaled maximum is `0` it
returns an all-zero list of the same length; with `scaleToMax` omitted
it returns the unscaled output unchanged.  For negative `s` the
maximum-equals-`s` guarantee fails (see the counterexample). -/
theorem C6_predict_scaled_clauses (m : MutationAccumulationModel)
    (ages : List ℝ) (s : ℝ) :
    (0 < listMax (m.predict ages) → 0 ≤ s →
      listMax (m.predict_scaled ages (some s)) = s) ∧
    (listMax (m.predict ages) = 0 →
      m.predict_scaled ages (some s)
        = List.replicate (m.predict ages).length 0) ∧
    m.predict_scaled ages none = m.predict ages := by
  refine ⟨fun hmax hs => ?_, fun hmax => ?_, rfl⟩
  · rw [predict_scaled_some, if_pos hmax]
    have hmap : (m.predict ages).map (fun x => x / listMax (m.predict ages) * s)
        = (m.predict ages).map (fun x => x * (s / listMax (m.predict ages))) := by
      refine List.map_congr_left fun x _ => ?_
      field_simp
    rw [hmap, listMax_map_mul (div_nonneg hs hmax.le)]
    field_simp
  · rw [predict_scaled_some, if_neg (by rw [hmax]; exact lt_irrefl 0)]

theorem mW_predictOne_zero : mW.predictOne 0 = 0 := by
  rw [predictOne_unfold]
  simp only [mW]
  norm_num

theorem mW_predictOne_one : mW.predictOne 1 = 1/2 := by
  rw [predictOne_unfold]
  simp only [mW]
  norm_num

theorem mW_predict_eval : mW.predict [0, 1] = [0, 1/2] := by
  unfold MutationAccumulationModel.predict
  rw [List.map_cons, List.map_cons, List.map_nil, mW_predictOne_zero,
    mW_predictOne_one]

theorem listMax_01half : listMax [0, 1/2] = 1/2 := by
  show max (0:ℝ) (1/2) = 1/2
  exact max_eq_right (by norm_num)

/-- C6 counterexample.  With a negative `scaleToMax` the rescaled
maximum is not `scaleToMax`, even though the unscaled maximum is
nonzero: at the valid model `mW` and ages `[0, 1]` the predictions are
`[0, 1/2]` (maximum `1/2 ≠ 0`), and `predict_scaled` with
`scale_to_max = -1` returns `[0, -1]`, whose maximum is `0`, not `-1`. -/
theorem C6_counterexample :
    listMax (mW.predict [0, 1]) ≠ 0 ∧
    listMax (mW.predict_scaled [0, 1] (some (-1))) ≠ -1 := by
  constructor
  · rw [mW_predict_eval, listMax_01half]
    norm_num
  · rw [predict_scaled_some, mW_predict_eval, listMax_01half,
      if_pos (by norm_num)]
    have hmap : ([0, 1/2] : List ℝ).map (fun x => x / (1/2) * (-1)) = [0, -1] := by
      norm_num
    rw [hmap, show listMax [0, -1] = 0 from max_eq_left (by norm_num)]
    norm_num

/-- Witness for the amended C6 at `mW`, ages `[0, 1]`, `scaleToMax = 3`. -/
theorem C6_predict_scaled_clauses_witness :
    0 < listMax (mW.predict [0, 1]) ∧ (0:ℝ) ≤ 3 ∧
    listMax (mW.predict_scaled [0, 1] (some 3)) = 3 := by
  have hpos : 0 < listMax (mW.predict [0, 1]) := by
    rw [mW_predict_eval, listMax_01half]
    norm_num
  exact ⟨hpos, by norm_num,
    (C6_predict_scaled_clauses mW [0, 1] 3).1 hpos (by norm_num)⟩

/-! ### Claim C9 -/

/-- C9 amended.  For every input and target year, each of the two
curve-extraction functions — `prepare_age_incidence_data` and
`get_site_age_incidence` (on its non-`None` result) — returns
equal-length `ages` and `rates`; every age is a defined (non-NaN)
midpoint of a selected row; the ages are sorted non-decreasingly.  They
are *strictly* increasing only when the selected rows (aggregated
groups, for `get_site_age_incidence`) have pairwise-distinct midpoints,
and the rates are NaN-free only when the selected rows carry non-NaN
rates — neither proviso is enforced by the code for arbitrary input
(see the counterexample). -/
theorem C9_curve_invariant (rows : List AgeRow) (y : ℤ)
    (by_age : List ByAgeRow) (site : String) :
    (prepare_age_incidence_data rows y).1.length
        = (prepare_age_incidence_data rows y).2.length ∧
    (∀ q ∈ (prepare_age_incidence_data rows y).1,
        ∃ row ∈ selectedRows rows y, rowMid row = some q) ∧
    List.Pairwise (· ≤ ·) (prepare_age_incidence_data rows y).1 ∧
    (((selectedRows rows y).map keyv).Nodup →
        List.Pairwise (· < ·) (prepare_age_incidence_data rows y).1) ∧
    ((∀ row ∈ selectedRows rows y, row.RATE ≠ none) →
        ∀ q ∈ (prepare_age_incidence_data rows y).2, q ≠ none) ∧
    (∀ out, get_site_age_incidence by_age site y = some out →
      out.1.length = out.2.length ∧
      (∀ q ∈ out.1, ∃ g ∈ selectedGroups by_age site y, g.AGE_MID = some q) ∧
      List.Pairwise (· ≤ ·) out.1 ∧
      (((selectedGroups by_age site y).map aggKey).Nodup →
          List.Pairwise (· < ·) out.1) ∧
      ((∀ g ∈ selectedGroups by_age site y, g.RATE ≠ none) →
          ∀ q ∈ out.2, q ≠ none)) := by
  have hperm := List.perm_insertionSort rowLE (selectedRows rows y)
  have hsorted := List.sorted_insertionSort rowLE (selectedRows rows y)
  have hle : List.Pairwise (· ≤ ·) (prepare_age_incidence_data rows y).1 :=
    List.pairwise_map.mpr (hsorted.imp fun h => h)
  refine ⟨by simp [prepare_age_incidence_data], fun q hq => ?_, hle,
    fun hnd => ?_, fun hr q hq => ?_, fun out hout => ?_⟩
  · obtain ⟨row, hrow, rfl⟩ := List.mem_map.mp hq
    have hrowsel : row ∈ selectedRows rows y := hperm.subset hrow
    have hf1 : (rowMid row).isSome = true :=
      (List.mem_filter.mp (List.mem_filter.mp hrowsel).1).2
    obtain ⟨v, hv⟩ := Option.isSome_iff_exists.mp hf1
    refine ⟨row, hrowsel, ?_⟩
    rw [hv]
    simp [keyv, hv]
  · have hndsrt :
        (((selectedRows rows y).insertionSort rowLE).map keyv).Nodup :=
      ((hperm.map keyv).nodup_iff).mpr hnd
    exact (hle.and hndsrt).imp fun h => lt_of_le_of_ne h.1 h.2
  · obtain ⟨row, hrow, rfl⟩ := List.mem_map.mp hq
    exact hr row (hperm.subset hrow)
  · have hgperm := List.perm_insertionSort aggLE (selectedGroups by_age site y)
    have hgsorted := List.sorted_insertionSort aggLE (selectedGroups by_age site y)
    have hout2 : out
        = (((selectedGroups by_age site y).insertionSort aggLE).map aggKey,
           ((selectedGroups by_age site y).insertionSort aggLE).map
             (fun g => g.RATE)) := by
      unfold get_site_age_incidence at hout
      by_cases hemp : (siteFilter by_age site).isEmpty
      · rw [if_pos hemp] at hout
        exact absurd hout (by simp)
      · rw [if_neg hemp] at hout
        exact (Option.some.injEq _ _).mp hout.symm
    subst hout2
    have hgle : List.Pairwise (· ≤ ·)
        (((selectedGroups by_age site y).insertionSort aggLE).map aggKey) :=
      List.pairwise_map.mpr (hgsorted.imp fun h => h)
    refine ⟨by simp, fun q hq => ?_, hgle, fun hnd => ?_, fun hr q hq => ?_⟩
    · obtain ⟨g, hg, rfl⟩ := List.mem_map.mp hq
      have hgsel : g ∈ selectedGroups by_age site y := hgperm.subset hg
      have hf1 : g.AGE_MID.isSome = true :=
        (List.mem_filter.mp (List.mem_filter.mp hgsel).1).2
      obtain ⟨v, hv⟩ := Option.isSome_iff_exists.mp hf1
      refine ⟨g, hgsel, ?_⟩
      rw [hv]
      simp [aggKey, hv]
    · have hndsrt :
          ((((selectedGroups by_age site y).insertionSort aggLE)).map
            aggKey).Nodup :=
        ((hgperm.map aggKey).nodup_iff).mpr hnd
      exact (hgle.and hndsrt).imp fun h => lt_of_le_of_ne h.1 h.2
    · obtain ⟨g, hg, rfl⟩ := List.mem_map.mp hq
      exact hr g (hgperm.subset hg)

/-- A row of the C9 counterexample dataset. -/
noncomputable def r9a : AgeRow := ⟨"0-4", some 2020, some 1⟩

/-- A second row with the same age group and year as `r9a`. -/
noncomputable def r9b : AgeRow := ⟨"0-4", some 2020, some 2⟩

/-- The C9 counterexample dataset: two rows for the same age group in
the same year (as the un-aggregated BYAGE table has, e.g. one row per
sex). -/
noncomputable def rows9 : List AgeRow := [r9a, r9b]

/-- C9 counterexample.  On a dataset with two rows for the same age
group and year, the extracted ages are `[2, 2]` — not strictly
increasing, refuting the claimed invariant for arbitrary input. -/
theorem C9_counterexample :
    ¬ List.Pairwise (· < ·) (prepare_age_incidence_data rows9 2020).1 := by
  intro h
  have hsel : selectedRows rows9 2020 = [r9a, r9b] := rfl
  have hsort : (selectedRows rows9 2020).insertionSort rowLE = [r9a, r9b] := by
    rw [hsel]
    simp only [List.insertionSort, List.orderedInsert_nil]
    exact List.orderedInsert_of_le rowLE [] (le_of_eq (rfl : keyv r9a = keyv r9b))
  have hages : (prepare_age_incidence_data rows9 2020).1
      = [keyv r9a, keyv r9b] := by
    unfold prepare_age_incidence_data
    rw [hsort]
    rfl
  rw [hages] at h
  have hlt : keyv r9a < keyv r9b :=
    (List.pairwise_cons.mp h).1 _ (List.mem_singleton.mpr rfl)
  rw [show keyv r9b = keyv r9a from rfl] at hlt
  exact lt_irrefl _ hlt

theorem mid_04 : age_group_to_mid "0-4" = some 2 := by
  have h := @age_group_to_mid_range ['0'] ['4']
    (by decide) (by decide) (by decide) (by decide)
  rw [show ("0-4" : String) = String.mk (['0'] ++ '-' :: ['4']) from rfl, h]
  norm_num [show digitsVal ['0'] = 0 from by decide,
    show digitsVal ['4'] = 4 from by decide]

theorem mid_59 : age_group_to_mid "5-9" = some 7 := by
  have h := @age_group_to_mid_range ['5'] ['9']
    (by decide) (by decide) (by decide) (by decide)
  rw [show ("5-9" : String) = String.mk (['5'] ++ '-' :: ['9']) from rfl, h]
  norm_num [show digitsVal ['5'] = 5 from by decide,
    show digitsVal ['9'] = 9 from by decide]

/-- A row with a distinct age group, for the C9 witness. -/
noncomputable def r9c : AgeRow := ⟨"5-9", some 2020, some 2⟩

/-- The C9 witness dataset: distinct age groups per year. -/
noncomputable def rows9w : List AgeRow := [r9a, r9c]

/-- A BYAGE row for the C9 witness. -/
noncomputable def g9a : ByAgeRow :=
  ⟨"Incidence", "All Races", "Lung and Bronchus", "0-4", some 2020,
    some 1, some 100⟩

/-- A second BYAGE row with a distinct age group. -/
noncomputable def g9b : ByAgeRow :=
  ⟨"Incidence", "All Races", "Lung and Bronchus", "5-9", some 2020,
    some 2, some 100⟩

/-- The C9 witness BYAGE dataset. -/
noncomputable def byAgeW : List ByAgeRow := [g9a, g9b]

/-- The aggregated row of the `("0-4", 2020)` group of `byAgeW`. -/
noncomputable def aggW1 : AggRow :=
  ⟨"0-4", some 2020, some ((1 + 0 : ℝ) / (100 + 0) * 100000), some 2⟩

/-- The aggregated row of the `("5-9", 2020)` group of `byAgeW`. -/
noncomputable def aggW2 : AggRow :=
  ⟨"5-9", some 2020, some ((2 + 0 : ℝ) / (100 + 0) * 100000), some 7⟩

theorem aggRowFor_W1 :
    aggRowFor [g9a, g9b] ("0-4", some 2020) = aggW1 := by
  unfold aggRowFor aggW1
  rw [if_neg (show ¬(groupPopulation [g9a, g9b] ("0-4", some 2020) = 0) from by
      show ¬((100 : ℝ) + 0 = 0)
      norm_num), mid_04]
  rfl

theorem aggRowFor_W2 :
    aggRowFor [g9a, g9b] ("5-9", some 2020) = aggW2 := by
  unfold aggRowFor aggW2
  rw [if_neg (show ¬(groupPopulation [g9a, g9b] ("5-9", some 2020) = 0) from by
      show ¬((100 : ℝ) + 0 = 0)
      norm_num), mid_59]
  rfl

theorem selectedGroups_W :
    selectedGroups byAgeW "Lung and Bronchus" 2020 = [aggW1, aggW2] := by
  unfold selectedGroups
  rw [show siteFilter byAgeW "Lung and Bronchus" = [g9a, g9b] from rfl]
  unfold aggregate
  rw [show groupKeys [g9a, g9b]
      = [("0-4", some 2020), ("5-9", some 2020)] from rfl]
  rw [List.map_cons, List.map_cons, List.map_nil, aggRowFor_W1, aggRowFor_W2]
  rfl

theorem get_site_W :
    get_site_age_incidence byAgeW "Lung and Bronchus" 2020
      = some ([2, 7], [aggW1.RATE, aggW2.RATE]) := by
  unfold get_site_age_incidence
  rw [if_neg (show ¬((siteFilter byAgeW "Lung and Bronchus").isEmpty = true)
      from by
      rw [show (siteFilter byAgeW "Lung and Bronchus").isEmpty = false from rfl]
      simp)]
  rw [selectedGroups_W]
  have hsort : [aggW1, aggW2].insertionSort aggLE = [aggW1, aggW2] := by
    simp only [List.insertionSort, List.orderedInsert_nil]
    exact List.orderedInsert_of_le aggLE []
      (show aggKey aggW1 ≤ aggKey aggW2 from by
        show (2 : ℚ) ≤ 7
        norm_num)
  rw [hsort]
  rfl

/-- Witness for the amended C9: a `prepare_age_incidence_data` dataset
and a `get_site_age_incidence` dataset, each with pairwise-distinct age
midpoints, on which the extracted ages are strictly increasing. -/
theorem C9_curve_invariant_witness :
    ((selectedRows rows9w 2020).map keyv).Nodup ∧
    List.Pairwise (· < ·) (prepare_age_incidence_data rows9w 2020).1 ∧
    ((selectedGroups byAgeW "Lung and Bronchus" 2020).map aggKey).Nodup ∧
    List.Pairwise (· < ·) ([2, 7] : List ℚ) := by
  have h1 : keyv r9a = 2 := by simp [keyv, rowMid, r9a, mid_04]
  have h2 : keyv r9c = 7 := by simp [keyv, rowMid, r9c, mid_59]
  have hnd : ((selectedRows rows9w 2020).map keyv).Nodup := by
    rw [show selectedRows rows9w 2020 = [r9a, r9c] from rfl]
    simp only [List.map_cons, List.map_nil, h1, h2]
    refine List.nodup_cons.mpr ⟨?_, List.nodup_singleton _⟩
    intro hm
    rw [List.mem_singleton] at hm
    norm_num at hm
  have hnd2 : ((selectedGroups byAgeW "Lung and Bronchus" 2020).map
      aggKey).Nodup := by
    rw [selectedGroups_W, show ([aggW1, aggW2].map aggKey)
        = [(2 : ℚ), 7] from rfl]
    refine List.nodup_cons.mpr ⟨?_, List.nodup_singleton _⟩
    intro hm
    rw [List.mem_singleton] at hm
    norm_num at hm
  refine ⟨hnd,
    (C9_curve_invariant rows9w 2020 byAgeW "Lung and Bronchus").2.2.2.1 hnd,
    hnd2, ?_⟩
  exact ((C9_curve_invariant rows9w 2020 byAgeW "Lung and Bronchus").2.2.2.2.2
    ([2, 7], [aggW1.RATE, aggW2.RATE]) get_site_W).2.2.2.1 hnd2

/-! ### Claim C5: monotonicity of `predict` in age.

For `C = 1` the per-clone probability `1 - (1-p_eff)^N` is monotone in
`N` because `x ↦ c^x` is antitone for a base `c ∈ (0,1]`.  For `C ≥ 2`
the Poisson tail `1 - PoissonCDF(k-1; λ)` is monotone in `λ` because
the CDF partial sum has derivative `-exp(-λ) λ^(k-1) / (k-1)!  ≤ 0`
(the sum telescopes), hence is antitone on `[0, ∞)`. -/

theorem hasDerivAt_expNeg (L : ℝ) :
    HasDerivAt (fun x : ℝ => Real.exp (-x)) (-Real.exp (-L)) L := by
  have h1 : HasDerivAt (fun x : ℝ => -x) (-1) L := (hasDerivAt_id L).neg
  simpa using h1.exp

theorem hasDerivAt_poissonTerm (j : ℕ) (L : ℝ) :
    HasDerivAt (fun x => Real.exp (-x) * x ^ (j+1) / (Nat.factorial (j+1) : ℝ))
      (Real.exp (-L) * L ^ j / (Nat.factorial j : ℝ)
        - Real.exp (-L) * L ^ (j+1) / (Nat.factorial (j+1) : ℝ)) L := by
  have hpow : HasDerivAt (fun x : ℝ => x ^ (j+1)) ((j+1 : ℕ) * L ^ j) L := by
    simpa using hasDerivAt_pow (j+1) L
  have hmul := (hasDerivAt_expNeg L).mul hpow
  have hdiv := hmul.div_const ((Nat.factorial (j+1) : ℝ))
  convert hdiv using 1
  have hfac : ((Nat.factorial (j+1) : ℝ)) = (j+1 : ℝ) * (Nat.factorial j : ℝ) := by
    rw [Nat.factorial_succ]
    push_cast
    ring
  have hj : (Nat.factorial j : ℝ) ≠ 0 :=
    Nat.cast_ne_zero.mpr (Nat.factorial_ne_zero j)
  have hj1 : ((j:ℝ) + 1) ≠ 0 := by positivity
  rw [hfac]
  field_simp
  ring

theorem hasDerivAt_poissonCdfSum (k : ℕ) (L : ℝ) :
    HasDerivAt (fun x => poissonCdfSum (k+1) x)
      (-(Real.exp (-L) * L ^ k / (Nat.factorial k : ℝ))) L := by
  induction k with
  | zero =>
      have heq : (fun x => poissonCdfSum 1 x) = fun x : ℝ => Real.exp (-x) := by
        funext x
        unfold poissonCdfSum
        simp
      rw [heq]
      simpa using hasDerivAt_expNeg L
  | succ n ih =>
      have heq : (fun x => poissonCdfSum (n+2) x)
          = fun x : ℝ => poissonCdfSum (n+1) x
              + Real.exp (-x) * x ^ (n+1) / (Nat.factorial (n+1) : ℝ) := by
        funext x
        unfold poissonCdfSum
        rw [Finset.sum_range_succ]
      rw [heq]
      have hsum := ih.add (hasDerivAt_poissonTerm n L)
      convert hsum using 1
      ring

theorem poissonCdfSum_antitoneOn (k : ℕ) :
    AntitoneOn (fun L => poissonCdfSum (k+1) L) (Set.Ici (0:ℝ)) := by
  refine antitoneOn_of_deriv_nonpos (convex_Ici 0) ?_ ?_ ?_
  · exact fun x _ =>
      (hasDerivAt_poissonCdfSum k x).continuousAt.continuousWithinAt
  · intro x _
    exact (hasDerivAt_poissonCdfSum k x).differentiableAt.differentiableWithinAt
  · intro x hx
    rw [interior_Ici] at hx
    rw [(hasDerivAt_poissonCdfSum k x).deriv]
    have h0 : 0 ≤ Real.exp (-x) * x ^ k / (Nat.factorial k : ℝ) :=
      div_nonneg (mul_nonneg (Real.exp_pos _).le (pow_nonneg (le_of_lt hx) k))
        (Nat.cast_nonneg _)
    linarith

theorem binomial_probability_mono {p : ℝ} {k : ℕ} (hk : 2 ≤ k)
    (hp0 : 0 ≤ p) {n n' : ℝ} (hn : 0 ≤ n) (hnn : n ≤ n') :
    binomial_probability n k p ≤ binomial_probability n' k p := by
  have hk1 : ¬ (k = 1) := by omega
  have hn' : 0 ≤ n' := le_trans hn hnn
  unfold binomial_probability
  rw [if_neg hk1, if_neg hk1]
  by_cases h1 : (k:ℝ) > n
  · rw [if_pos h1]
    by_cases h2 : (k:ℝ) > n'
    · rw [if_pos h2]
    · rw [if_neg h2]
      by_cases h3 : n' * p < 1/10^10
      · rw [if_pos h3]
      · rw [if_neg h3]
        have := poissonCdfSum_le_one k (mul_nonneg hn' hp0)
        linarith
  · rw [if_neg h1]
    have h2 : ¬ ((k:ℝ) > n') := by
      push_neg at h1 ⊢
      linarith
    rw [if_neg h2]
    by_cases h3 : n * p < 1/10^10
    · rw [if_pos h3]
      by_cases h4 : n' * p < 1/10^10
      · rw [if_pos h4]
      · rw [if_neg h4]
        have := poissonCdfSum_le_one k (mul_nonneg hn' hp0)
        linarith
    · rw [if_neg h3]
      have h4 : ¬ (n' * p < 1/10^10) := by
        push_neg at h3 ⊢
        calc (1:ℝ)/10^10 ≤ n * p := h3
          _ ≤ n' * p := mul_le_mul_of_nonneg_right hnn hp0
      rw [if_neg h4]
      have hS : poissonCdfSum k (n' * p) ≤ poissonCdfSum k (n * p) := by
        obtain ⟨j, rfl⟩ : ∃ j, k = j + 1 := ⟨k - 1, by omega⟩
        exact poissonCdfSum_antitoneOn j (Set.mem_Ici.mpr (mul_nonneg hn hp0))
          (Set.mem_Ici.mpr (mul_nonneg hn' hp0))
          (mul_le_mul_of_nonneg_right hnn hp0)
      linarith

theorem rpow_cell_mono {q : ℝ} (hq0 : 0 ≤ q) (hq1 : q < 1) {N N' : ℝ}
    (h : N ≤ N') : 1 - (1 - q) ^ N ≤ 1 - (1 - q) ^ N' := by
  have hb0 : (0:ℝ) < 1 - q := by linarith
  have hb1 : (1:ℝ) - q ≤ 1 := by linarith
  have := Real.rpow_le_rpow_of_exponent_ge hb0 hb1 h
  linarith

theorem pyint_mono {x y : ℝ} (hx : 0 ≤ x) (hxy : x ≤ y) : pyint x ≤ pyint y := by
  unfold pyint
  rw [if_pos hx, if_pos (le_trans hx hxy)]
  exact_mod_cast Int.floor_le_floor hxy

/-- C5.  For every valid parameter set with `p`, `M`,
`divisions_per_year` positive, `predict` is monotone non-decreasing in
age: `0 ≤ a ≤ a'` implies `predict(a) ≤ predict(a')`. -/
theorem C5_monotone_in_age (m : MutationAccumulationModel)
    (hp0 : 0 < m.p) (hp1 : m.p < 1) (hM : 1 ≤ m.M)
    (hdpy : 0 < m.divisions_per_year) (hC : 1 ≤ m.C)
    (hr0 : 0 ≤ m.r) (hr1 : m.r ≤ 1)
    (a a' : ℝ) (ha : 0 ≤ a) (haa : a ≤ a') :
    m.predictOne a ≤ m.predictOne a' := by
  rw [predictOne_unfold, predictOne_unfold]
  obtain ⟨hpe0, hpe1⟩ := p_eff_mem_Icc hp0 hp1 hr0 hr1
  have hpe1' : m.p * (1 - m.r) < 1 :=
    lt_of_le_of_lt (mul_le_of_le_one_right hp0.le (by linarith)) hp1
  have hN : a * m.divisions_per_year ≤ a' * m.divisions_per_year :=
    mul_le_mul_of_nonneg_right haa hdpy.le
  have hN0 : 0 ≤ a * m.divisions_per_year := mul_nonneg ha hdpy.le
  have hN0' : 0 ≤ a' * m.divisions_per_year :=
    mul_nonneg (le_trans ha haa) hdpy.le
  have hmono : (if m.C = 1
        then 1 - (1 - m.p * (1 - m.r)) ^ (a * m.divisions_per_year)
        else binomial_probability (pyint (a * m.divisions_per_year)) m.C
               (m.p * (1 - m.r)))
      ≤ (if m.C = 1
        then 1 - (1 - m.p * (1 - m.r)) ^ (a' * m.divisions_per_year)
        else binomial_probability (pyint (a' * m.divisions_per_year)) m.C
               (m.p * (1 - m.r))) := by
    rcases eq_or_ne m.C 1 with hC1 | hC1
    · rw [if_pos hC1, if_pos hC1]
      exact rpow_cell_mono hpe0 hpe1' hN
    · rw [if_neg hC1, if_neg hC1]
      exact binomial_probability_mono (by omega) hpe0 (pyint_nonneg hN0)
        (pyint_mono hN0 hN)
  obtain ⟨hA0, hA1⟩ := p_cell_mem_Icc hp0 hp1 hr0 hr1 hN0
  obtain ⟨hB0, hB1⟩ := p_cell_mem_Icc hp0 hp1 hr0 hr1 hN0'
  have hpow : (1 - (if m.C = 1
        then 1 - (1 - m.p * (1 - m.r)) ^ (a' * m.divisions_per_year)
        else binomial_probability (pyint (a' * m.divisions_per_year)) m.C
               (m.p * (1 - m.r)))) ^ m.M
      ≤ (1 - (if m.C = 1
        then 1 - (1 - m.p * (1 - m.r)) ^ (a * m.divisions_per_year)
        else binomial_probability (pyint (a * m.divisions_per_year)) m.C
               (m.p * (1 - m.r)))) ^ m.M :=
    pow_le_pow_left₀ (by linarith) (by linarith) m.M
  linarith

/-- Witness for C5 at the concrete model `mW` and ages `1 ≤ 2`. -/
theorem C5_monotone_in_age_witness :
    (0:ℝ) ≤ 1 ∧ (1:ℝ) ≤ 2 ∧ mW.predictOne 1 ≤ mW.predictOne 2 :=
  ⟨by norm_num, by norm_num,
    C5_monotone_in_age mW (by norm_num [mW]) (by norm_num [mW])
      (by norm_num [mW]) (by norm_num [mW]) (by norm_num [mW])
      (by norm_num [mW]) (by norm_num [mW]) 1 2 (by norm_num) (by norm_num)⟩

end CancerRisk
